import Mathlib

/-!
A shallow embedding of the chat broadcaster/history engine of
`crates/web-app-demo-backend/src/chat/mod.rs`.

The Rust `ChatServer` owns two concurrent maps:
  * `histories  : DashMap<ChatId, Arc<Mutex<Vec<ChatMessage>>>>`
  * `broadcasts : DashMap<ChatId, tokio::sync::broadcast::Sender<ChatMessage>>`

We model each `DashMap` as an association list keyed by the id type.  A
history cell carries its mutex poison flag explicitly (a `std::sync::Mutex`
can be poisoned by a panicking holder; no operation in this file poisons a
lock, but states with poisoned cells are in the state space so that the
error path of `send_message`/`get_chat_history` is faithfully represented).

The tokio broadcast channel is not part of this repository; its behaviour
(bounded ring buffer, per-receiver cursor, lag signal) is modelled from the
spec where the claims depend on it; each such definition says so in its doc
comment.  Identifier types (`uuid::Uuid`) are modelled as `Nat`, which keeps
structural equality and map-key use; nothing in the claims depends on the
128-bit width or on randomness.
-/

namespace ChatDemo

/-- `ChatId` wraps a uuid; modelled as a `Nat` key. -/
structure ChatId where
  id : Nat
deriving DecidableEq, Repr

/-- `UserId` wraps a uuid; modelled as a `Nat` key. -/
structure UserId where
  id : Nat
deriving DecidableEq, Repr

/-- `EventId` wraps a uuid; modelled as a `Nat` key. -/
structure EventId where
  id : Nat
deriving DecidableEq, Repr

/-- `DisplayName` wraps a `String`. -/
structure DisplayName where
  name : String
deriving DecidableEq, Repr

/-- `Message` wraps a `String`. -/
structure Message where
  text : String
deriving DecidableEq, Repr

/-- `ChatTimestamp` wraps a UTC instant; modelled as an `Int` (seconds). -/
structure ChatTimestamp where
  t : Int
deriving DecidableEq, Repr

/-- The immutable event record `ChatMessage` from `chat/mod.rs`. -/
structure ChatMessage where
  event_id : EventId
  timestamp : ChatTimestamp
  chat_id : ChatId
  user_id : UserId
  display_name : DisplayName
  message : Message
deriving DecidableEq, Repr

/-- The error enum `ChatServerErrors` from `chat/mod.rs`.  The Rust
`LockPoisoned` variant also captures a backtrace, which is diagnostic
only and dropped here. -/
inductive ChatServerErrors where
  | LockPoisoned (message : String)
  | ChatNotFound (chat_id : ChatId)
deriving DecidableEq, Repr

/-! ### Association-list model of `DashMap` -/

/-- `DashMap::get`: first binding of key `k`. -/
def alookup {α β : Type} [DecidableEq α] (k : α) : List (α × β) → Option β
  | [] => none
  | p :: rest => if p.1 = k then some p.2 else alookup k rest

/-- Store value `v` at key `k`: replace the first binding, or append. -/
def aset {α β : Type} [DecidableEq α] (k : α) (v : β) : List (α × β) → List (α × β)
  | [] => [(k, v)]
  | p :: rest => if p.1 = k then (k, v) :: rest else p :: aset k v rest

/-- `DashMap::remove_if`: remove the binding of `k` when the predicate
holds on its value. -/
def aremoveIf {α β : Type} [DecidableEq α] (k : α) (q : β → Bool) :
    List (α × β) → List (α × β)
  | [] => []
  | p :: rest =>
    if p.1 = k then (if q p.2 then rest else p :: rest)
    else p :: aremoveIf k q rest

/-- `DashMap::entry(k).or_insert(d)` (and `or_default`): return the map
with `k` bound, together with the value now bound at `k`. -/
def orInsert {α β : Type} [DecidableEq α] (k : α) (d : β) (m : List (α × β)) :
    List (α × β) × β :=
  match alookup k m with
  | some v => (m, v)
  | none => (aset k d m, d)

/-! ### History cells and broadcast channels -/

/-- One `Arc<Mutex<Vec<ChatMessage>>>` history cell: the mutex poison flag
and the vector of events. -/
structure HistoryCell where
  poisoned : Bool
  events : List ChatMessage
deriving DecidableEq, Repr

/-- `Vec::default()` behind a fresh, unpoisoned mutex. -/
def emptyHistoryCell : HistoryCell :=
  { poisoned := false, events := [] }

/-- Modelled from the spec: the tokio broadcast channel backing one room
(`tokio::sync::broadcast`), which is an external library, not code under
`src/`.  `sent` is the full totally-ordered stream of values accepted by
the sender (the bounded ring buffer keeps its last `capacity` entries);
`receivers` maps a receiver id to its cursor into `sent`; `chanId` is the
identity of the channel object (which `Sender` allocation it came from). -/
structure BroadcastChannel where
  chanId : Nat
  capacity : Nat
  sent : List ChatMessage
  receivers : List (Nat × Nat)
deriving DecidableEq, Repr

/-- `Sender::subscribe`: attach a fresh receiver whose cursor starts at the
current tail, so it only observes values sent after it subscribed. -/
def chanSubscribe (ch : BroadcastChannel) (rid : Nat) : BroadcastChannel :=
  { ch with receivers := ch.receivers ++ [(rid, ch.sent.length)] }

/-- Modelled from the spec: `Sender::send`.  With no attached receiver the
send reports an error (ignored by the caller) and the value is dropped;
otherwise the value is appended to the stream, evicting the oldest
buffered value once more than `capacity` are pending for some receiver
(eviction is observed through `chanRecv`, not stored eagerly). -/
def chanSend (ch : BroadcastChannel) (m : ChatMessage) : BroadcastChannel :=
  if ch.receivers.isEmpty then ch
  else { ch with sent := ch.sent ++ [m] }

/-- One read from a `BroadcastStream`: an ordinary event, a lag signal
carrying the number of skipped events, or nothing pending. -/
inductive RecvResult where
  | pending
  | msg (m : ChatMessage)
  | lagged (missed : Nat)
deriving DecidableEq, Repr

/-- Modelled from the spec: `Receiver::recv` via `BroadcastStream`.  If the
receiver's cursor has fallen more than `capacity` behind the tail, the
oldest pending values were evicted: the read yields a lag signal with the
number of skipped values and the cursor jumps to the oldest retained
value; otherwise it yields the value at the cursor and advances it. -/
def chanRecv (ch : BroadcastChannel) (rid : Nat) : BroadcastChannel × RecvResult :=
  match alookup rid ch.receivers with
  | none => (ch, RecvResult.pending)
  | some pos =>
    if h : pos < ch.sent.length then
      if ch.sent.length - pos > ch.capacity then
        let newPos := ch.sent.length - ch.capacity
        ({ ch with receivers := aset rid newPos ch.receivers },
         RecvResult.lagged (newPos - pos))
      else
        ({ ch with receivers := aset rid (pos + 1) ch.receivers },
         RecvResult.msg (ch.sent.get ⟨pos, h⟩))
    else (ch, RecvResult.pending)

/-! ### The `ChatServer` -/

/-- The `ChatServer` state: both maps, plus two counters that mint fresh
identities for channel objects and receivers (in Rust these identities are
the heap allocations themselves). -/
structure ChatServer where
  histories : List (ChatId × HistoryCell)
  broadcasts : List (ChatId × BroadcastChannel)
  nextChanId : Nat
  nextRecvId : Nat
deriving DecidableEq, Repr

/-- `ChatServer::new`. -/
def ChatServer.new : ChatServer :=
  { histories := [], broadcasts := [], nextChanId := 0, nextRecvId := 0 }

/-- `ChatServer::broadcast_message`: look the room's sender up; if present
send to it (ignoring the send error), otherwise do nothing. -/
def ChatServer.broadcast_message (s : ChatServer) (message : ChatMessage) : ChatServer :=
  match alookup message.chat_id s.broadcasts with
  | some sender =>
    { s with broadcasts := aset message.chat_id (chanSend sender message) s.broadcasts }
  | none => s

/-- `ChatServer::send_message`: get-or-create the room's history cell, lock
it (failing with `LockPoisoned` when the mutex is poisoned), push the
message, then broadcast it.  On the error path the cell necessarily
already existed, so the state is unchanged. -/
def ChatServer.send_message (s : ChatServer) (message : ChatMessage) :
    Except ChatServerErrors ChatServer :=
  let hm := orInsert message.chat_id emptyHistoryCell s.histories
  if hm.2.poisoned then
    Except.error (ChatServerErrors.LockPoisoned "accessing history")
  else
    let cell : HistoryCell := { hm.2 with events := hm.2.events ++ [message] }
    let s1 : ChatServer := { s with histories := aset message.chat_id cell hm.1 }
    Except.ok (s1.broadcast_message message)

/-- `ChatServer::join_chat`: ensure the history entry exists, then obtain a
receiver: subscribe to the room's sender if one is registered, otherwise
create a capacity-16 channel (whose initial receiver is dropped at once)
and subscribe to whatever `entry(..).or_insert(sender)` left in the map.
Returns the new state and the receiver id of the returned stream. -/
def ChatServer.join_chat (s : ChatServer) (chat_id : ChatId) : ChatServer × Nat :=
  let s1 : ChatServer := { s with histories := (orInsert chat_id emptyHistoryCell s.histories).1 }
  match alookup chat_id s1.broadcasts with
  | some ch =>
    let rid := s1.nextRecvId
    ({ s1 with broadcasts := aset chat_id (chanSubscribe ch rid) s1.broadcasts,
               nextRecvId := rid + 1 }, rid)
  | none =>
    let newCh : BroadcastChannel :=
      { chanId := s1.nextChanId, capacity := 16, sent := [], receivers := [] }
    let bm := orInsert chat_id newCh s1.broadcasts
    let rid := s1.nextRecvId
    ({ s1 with broadcasts := aset chat_id (chanSubscribe bm.2 rid) bm.1,
               nextChanId := s1.nextChanId + 1,
               nextRecvId := rid + 1 }, rid)

/-- `ChatServer::part_chat`: remove the room's broadcast entry if its
receiver count is zero at the instant of the check. -/
def ChatServer.part_chat (s : ChatServer) (chat_id : ChatId) : ChatServer :=
  { s with broadcasts := aremoveIf chat_id (fun v => v.receivers.length == 0) s.broadcasts }

/-- `ChatServer::get_chat_history`: look the room's history up (failing
with `ChatNotFound` when absent), lock it (failing with `LockPoisoned`
when poisoned) and return a clone of the vector.  The Rust method takes
`&self` and performs no insertion, so it does not change the state. -/
def ChatServer.get_chat_history (s : ChatServer) (chat_id : ChatId) :
    Except ChatServerErrors (List ChatMessage) :=
  match alookup chat_id s.histories with
  | none => Except.error (ChatServerErrors.ChatNotFound chat_id)
  | some cell =>
    if cell.poisoned then Except.error (ChatServerErrors.LockPoisoned "accessing history")
    else Except.ok cell.events

/-! ### Sequential traces of facade operations -/

/-- One facade call in a sequential trace. -/
inductive Op where
  | send (m : ChatMessage)
  | join (c : ChatId)
  | part (c : ChatId)
  | gethist (c : ChatId)
deriving DecidableEq, Repr

/-- The state after one facade call.  A failing `send_message` leaves the
state unchanged (its only mutation, `entry.or_default`, is the identity
whenever the poisoned-cell error fires, because the cell then already
existed); `get_chat_history` takes `&self` and never mutates. -/
def applyOp (s : ChatServer) : Op → ChatServer
  | Op.send m =>
    match s.send_message m with
    | Except.ok s1 => s1
    | Except.error _ => s
  | Op.join c => (s.join_chat c).1
  | Op.part c => s.part_chat c
  | Op.gethist _ => s

/-- The state after a sequential trace of facade calls. -/
def applyOps (s : ChatServer) (ops : List Op) : ChatServer :=
  ops.foldl applyOp s

/-- `send_message` for each message in turn, stopping at the first error. -/
def sendAll (s : ChatServer) : List ChatMessage → Except ChatServerErrors ChatServer
  | [] => Except.ok s
  | m :: rest =>
    match s.send_message m with
    | Except.ok s1 => sendAll s1 rest
    | Except.error e => Except.error e

/-- Whether the history mutex that `send_message` would lock for room `c`
is poisoned (a cell created fresh by `or_default` never is). -/
def histPoisoned (s : ChatServer) (c : ChatId) : Bool :=
  match alookup c s.histories with
  | some cell => cell.poisoned
  | none => false

/-- The events currently logged for room `c` (empty when the room has no
history entry). -/
def histEvents (s : ChatServer) (c : ChatId) : List ChatMessage :=
  match alookup c s.histories with
  | some cell => cell.events
  | none => []

/-! ### Two callers racing through `join_chat`

`join_chat` performs three atomic `DashMap` operations:
`histories.entry(..).or_default()`, then `broadcasts.get(..)` (subscribing
under the map guard when a sender is present), then - only when the get
missed - `broadcasts.entry(..).or_insert(sender).subscribe()`.  Channel
construction between the last two operations touches no shared map; we
model it as minting a fresh channel identity.  The race model interleaves
two threads at exactly these atomic points. -/

/-- The program counter of one caller running `join_chat`. -/
inductive TPhase where
  | start
  | checkChan
  | insertChan (localId : Nat)
  | done (chanId : Nat) (recvId : Nat)
deriving DecidableEq, Repr

/-- One atomic step of a caller running `join_chat chat_id`. -/
def threadStep (chat_id : ChatId) (sh : ChatServer) : TPhase → ChatServer × TPhase
  | TPhase.start =>
    ({ sh with histories := (orInsert chat_id emptyHistoryCell sh.histories).1 },
     TPhase.checkChan)
  | TPhase.checkChan =>
    match alookup chat_id sh.broadcasts with
    | some ch =>
      let rid := sh.nextRecvId
      ({ sh with broadcasts := aset chat_id (chanSubscribe ch rid) sh.broadcasts,
                 nextRecvId := rid + 1 },
       TPhase.done ch.chanId rid)
    | none =>
      ({ sh with nextChanId := sh.nextChanId + 1 }, TPhase.insertChan sh.nextChanId)
  | TPhase.insertChan localId =>
    let newCh : BroadcastChannel :=
      { chanId := localId, capacity := 16, sent := [], receivers := [] }
    let bm := orInsert chat_id newCh sh.broadcasts
    let rid := sh.nextRecvId
    ({ sh with broadcasts := aset chat_id (chanSubscribe bm.2 rid) bm.1,
               nextRecvId := rid + 1 },
     TPhase.done bm.2.chanId rid)
  | TPhase.done i r => (sh, TPhase.done i r)

/-- The shared server together with both callers' program counters. -/
structure RaceConfig where
  sh : ChatServer
  t1 : TPhase
  t2 : TPhase
deriving DecidableEq, Repr

/-- Let one of the two callers (chosen by `who`) take its next atomic
step; a finished caller's step is a no-op. -/
def raceStep (chat_id : ChatId) (cfg : RaceConfig) (who : Bool) : RaceConfig :=
  if who then
    let p := threadStep chat_id cfg.sh cfg.t1
    { sh := p.1, t1 := p.2, t2 := cfg.t2 }
  else
    let p := threadStep chat_id cfg.sh cfg.t2
    { sh := p.1, t1 := cfg.t1, t2 := p.2 }

/-- Run a schedule (the interleaving, as the list of which caller steps). -/
def raceRun (chat_id : ChatId) (cfg : RaceConfig) (sched : List Bool) : RaceConfig :=
  sched.foldl (raceStep chat_id) cfg

/-- A finished caller holds a receiver of the channel currently registered
for the room: the registered channel carries the caller's channel identity
and its receiver id.  Unfinished callers are unconstrained. -/
def doneOk (sh : ChatServer) (chat_id : ChatId) : TPhase → Prop
  | TPhase.done i r =>
    ∃ ch, alookup chat_id sh.broadcasts = some ch ∧ ch.chanId = i ∧
      (alookup r ch.receivers).isSome = true
  | _ => True

/-- Both callers' finished states are consistent with the registered
channel. -/
def raceInv (chat_id : ChatId) (cfg : RaceConfig) : Prop :=
  doneOk cfg.sh chat_id cfg.t1 ∧ doneOk cfg.sh chat_id cfg.t2

/-! ### Concrete inputs for witnesses -/

/-- A concrete room id. -/
def wChat : ChatId := ⟨0⟩

/-- A second, distinct concrete room id. -/
def wChat2 : ChatId := ⟨1⟩

/-- A concrete test message for room `wChat`, numbered by event id. -/
def wMsg (i : Nat) : ChatMessage :=
  { event_id := ⟨i⟩, timestamp := ⟨0⟩, chat_id := wChat, user_id := ⟨0⟩,
    display_name := ⟨"alice"⟩, message := ⟨"hello"⟩ }

/-- Seventeen concrete messages for room `wChat`: one more than the
channel capacity. -/
def wMsgs17 : List ChatMessage := (List.range 17).map wMsg

/-- A server whose history lock for `wChat` is poisoned. -/
def wPoisonedServer : ChatServer :=
  { histories := [(wChat, { poisoned := true, events := [] })], broadcasts := [],
    nextChanId := 0, nextRecvId := 0 }

/-- The concrete server obtained by posting `wMsg 0` to a fresh server. -/
def wServerAfterSend : ChatServer :=
  { histories := [(wChat, { poisoned := false, events := [wMsg 0] })], broadcasts := [],
    nextChanId := 0, nextRecvId := 0 }

/-- A server with a registered broadcast channel for `wChat` that has no
attached receiver. -/
def wIdleChannelServer : ChatServer :=
  { histories := [],
    broadcasts := [(wChat, { chanId := 0, capacity := 16, sent := [], receivers := [] })],
    nextChanId := 1, nextRecvId := 0 }

/-! ### Lemmas about the association-list map -/

theorem alookup_aset_self {α β : Type} [DecidableEq α] (k : α) (v : β) (m : List (α × β)) :
    alookup k (aset k v m) = some v := by
  induction m with
  | nil => simp [aset, alookup]
  | cons p rest ih =>
    by_cases h : p.1 = k
    · simp [aset, h, alookup]
    · simp [aset, h, alookup, ih]

theorem alookup_aset_ne {α β : Type} [DecidableEq α] {k k2 : α} (v : β) (m : List (α × β))
    (h : k2 ≠ k) : alookup k2 (aset k v m) = alookup k2 m := by
  have hne : ¬ k = k2 := fun h2 => h h2.symm
  induction m with
  | nil => simp [aset, alookup, hne]
  | cons p rest ih =>
    by_cases hp : p.1 = k
    · subst hp
      simp [aset, alookup, hne]
    · simp [aset, hp, alookup, ih]

theorem alookup_append {α β : Type} [DecidableEq α] (k : α) (l1 l2 : List (α × β)) :
    alookup k (l1 ++ l2) =
      match alookup k l1 with
      | some v => some v
      | none => alookup k l2 := by
  induction l1 with
  | nil => simp [alookup]
  | cons p rest ih =>
    by_cases h : p.1 = k
    · simp [alookup, h]
    · simp [alookup, h, ih]

theorem alookup_eq_none_of_not_mem {α β : Type} [DecidableEq α] (k : α) (m : List (α × β))
    (h : k ∉ m.map Prod.fst) : alookup k m = none := by
  induction m with
  | nil => rfl
  | cons p rest ih =>
    simp only [List.map_cons, List.mem_cons, not_or] at h
    have hne : ¬ p.1 = k := fun h2 => h.1 h2.symm
    simp [alookup, hne, ih h.2]

theorem mem_keys_aset {α β : Type} [DecidableEq α] {x k : α} (v : β) (m : List (α × β))
    (h : x ∈ (aset k v m).map Prod.fst) : x ∈ m.map Prod.fst ∨ x = k := by
  induction m with
  | nil => simpa [aset] using h
  | cons p rest ih =>
    by_cases hp : p.1 = k
    · simp only [aset, hp, if_true, List.map_cons, List.mem_cons] at h
      rcases h with h | h
      · exact Or.inr h
      · exact Or.inl (by simp [h])
    · simp only [aset, hp, if_false, List.map_cons, List.mem_cons] at h
      rcases h with h | h
      · exact Or.inl (by simp [h])
      · rcases ih h with h2 | h2
        · exact Or.inl (by simp [h2])
        · exact Or.inr h2

theorem nodupKeys_aset {α β : Type} [DecidableEq α] (k : α) (v : β) (m : List (α × β))
    (h : (m.map Prod.fst).Nodup) : ((aset k v m).map Prod.fst).Nodup := by
  induction m with
  | nil => simp [aset]
  | cons p rest ih =>
    simp only [List.map_cons, List.nodup_cons] at h
    by_cases hp : p.1 = k
    · subst hp
      simpa [aset, List.nodup_cons] using h
    · simp only [aset, hp, if_false, List.map_cons, List.nodup_cons]
      refine ⟨fun hmem => ?_, ih h.2⟩
      rcases mem_keys_aset v rest hmem with h2 | h2
      · exact h.1 h2
      · exact hp h2

theorem alookup_aremoveIf_self {α β : Type} [DecidableEq α] (k : α) (q : β → Bool)
    (m : List (α × β)) (h : (m.map Prod.fst).Nodup) :
    alookup k (aremoveIf k q m) =
      match alookup k m with
      | some v => if q v then none else some v
      | none => none := by
  induction m with
  | nil => rfl
  | cons p rest ih =>
    simp only [List.map_cons, List.nodup_cons] at h
    by_cases hp : p.1 = k
    · subst hp
      by_cases hq : q p.2
      · simp [aremoveIf, alookup, hq,
          alookup_eq_none_of_not_mem p.1 rest h.1]
      · simp [aremoveIf, alookup, hq]
    · simp [aremoveIf, hp, alookup, ih h.2]

theorem alookup_aremoveIf_ne {α β : Type} [DecidableEq α] {k k2 : α} (q : β → Bool)
    (m : List (α × β)) (h : k2 ≠ k) :
    alookup k2 (aremoveIf k q m) = alookup k2 m := by
  have hne : ¬ k = k2 := fun h2 => h h2.symm
  induction m with
  | nil => rfl
  | cons p rest ih =>
    by_cases hp : p.1 = k
    · subst hp
      by_cases hq : q p.2
      · simp [aremoveIf, hq, alookup, hne]
      · simp [aremoveIf, hq, alookup]
    · simp [aremoveIf, hp, alookup, ih]

theorem orInsert_of_none {α β : Type} [DecidableEq α] (k : α) (d : β) (m : List (α × β))
    (h : alookup k m = none) : orInsert k d m = (aset k d m, d) := by
  simp [orInsert, h]

theorem orInsert_of_some {α β : Type} [DecidableEq α] (k : α) (d : β) (m : List (α × β))
    {v : β} (h : alookup k m = some v) : orInsert k d m = (m, v) := by
  simp [orInsert, h]

theorem alookup_orInsert_self {α β : Type} [DecidableEq α] (k : α) (d : β) (m : List (α × β)) :
    alookup k (orInsert k d m).1 = some (orInsert k d m).2 := by
  cases h : alookup k m with
  | none => simp [orInsert, h, alookup_aset_self]
  | some v => simp [orInsert, h]

theorem alookup_orInsert_ne {α β : Type} [DecidableEq α] {k k2 : α} (d : β) (m : List (α × β))
    (h : k2 ≠ k) : alookup k2 (orInsert k d m).1 = alookup k2 m := by
  cases h2 : alookup k m with
  | none => simp [orInsert, h2, alookup_aset_ne _ _ h]
  | some v => simp [orInsert, h2]

theorem nodupKeys_orInsert {α β : Type} [DecidableEq α] (k : α) (d : β) (m : List (α × β))
    (h : (m.map Prod.fst).Nodup) : (((orInsert k d m).1).map Prod.fst).Nodup := by
  cases h2 : alookup k m with
  | none => simpa [orInsert, h2] using nodupKeys_aset k d m h
  | some v => simpa [orInsert, h2] using h

theorem aset_aset {α β : Type} [DecidableEq α] (k : α) (v w : β) (m : List (α × β)) :
    aset k v (aset k w m) = aset k v m := by
  induction m with
  | nil => simp [aset]
  | cons p rest ih =>
    by_cases hp : p.1 = k
    · simp [aset, hp]
    · simp [aset, hp, ih]

/-! ### Characterizations of the `ChatServer` operations -/

theorem send_message_err_char (s : ChatServer) (m : ChatMessage) (cell : HistoryCell)
    (hh : alookup m.chat_id s.histories = some cell) (hp : cell.poisoned = true) :
    s.send_message m = Except.error (ChatServerErrors.LockPoisoned "accessing history") := by
  simp [ChatServer.send_message, orInsert, hh, hp]

theorem send_message_ok_char (s : ChatServer) (m : ChatMessage) (cell : HistoryCell)
    (hh : alookup m.chat_id s.histories = some cell) (hp : cell.poisoned = false) :
    s.send_message m = Except.ok
      { s with
        histories :=
          aset m.chat_id { poisoned := false, events := cell.events ++ [m] } s.histories,
        broadcasts :=
          (match alookup m.chat_id s.broadcasts with
           | some ch => aset m.chat_id (chanSend ch m) s.broadcasts
           | none => s.broadcasts) } := by
  cases hb : alookup m.chat_id s.broadcasts <;>
    simp [ChatServer.send_message, ChatServer.broadcast_message, orInsert, hh, hp, hb]

theorem send_message_none_char (s : ChatServer) (m : ChatMessage)
    (hh : alookup m.chat_id s.histories = none) :
    s.send_message m = Except.ok
      { s with
        histories := aset m.chat_id { poisoned := false, events := [m] } s.histories,
        broadcasts :=
          (match alookup m.chat_id s.broadcasts with
           | some ch => aset m.chat_id (chanSend ch m) s.broadcasts
           | none => s.broadcasts) } := by
  cases hb : alookup m.chat_id s.broadcasts <;>
    simp [ChatServer.send_message, ChatServer.broadcast_message, orInsert, hh, hb,
      emptyHistoryCell, aset_aset]

theorem get_chat_history_ok_iff (s : ChatServer) (c : ChatId) (l : List ChatMessage) :
    s.get_chat_history c = Except.ok l ↔
      alookup c s.histories = some { poisoned := false, events := l } := by
  cases hh : alookup c s.histories with
  | none => simp [ChatServer.get_chat_history, hh]
  | some cell =>
    cases hp : cell.poisoned with
    | true =>
      simp only [ChatServer.get_chat_history, hh, hp, if_true]
      constructor
      · intro h
        cases h
      · intro h
        rw [Option.some_inj] at h
        rw [h] at hp
        cases hp
    | false =>
      constructor
      · intro h
        simp [ChatServer.get_chat_history, hh, hp] at h
        cases cell
        simp_all
      · intro h
        simp [hh] at h
        simp [ChatServer.get_chat_history, hh, hp, h]

theorem join_chat_fst_histories (s : ChatServer) (c : ChatId) :
    ((s.join_chat c).1).histories = (orInsert c emptyHistoryCell s.histories).1 := by
  unfold ChatServer.join_chat
  cases hb : alookup c s.broadcasts <;> simp [hb]

theorem join_chat_some_char (s : ChatServer) (c : ChatId) (ch : BroadcastChannel)
    (hb : alookup c s.broadcasts = some ch) :
    s.join_chat c =
      ({ s with histories := (orInsert c emptyHistoryCell s.histories).1,
                broadcasts := aset c (chanSubscribe ch s.nextRecvId) s.broadcasts,
                nextRecvId := s.nextRecvId + 1 },
       s.nextRecvId) := by
  simp [ChatServer.join_chat, hb]

theorem join_chat_none_char (s : ChatServer) (c : ChatId)
    (hb : alookup c s.broadcasts = none) :
    s.join_chat c =
      ({ s with histories := (orInsert c emptyHistoryCell s.histories).1,
                broadcasts := aset c
                  { chanId := s.nextChanId, capacity := 16, sent := [],
                    receivers := [(s.nextRecvId, 0)] } s.broadcasts,
                nextChanId := s.nextChanId + 1,
                nextRecvId := s.nextRecvId + 1 },
       s.nextRecvId) := by
  simp [ChatServer.join_chat, hb, orInsert, chanSubscribe, aset_aset]

theorem sendAll_from_cell (msgs : List ChatMessage) :
    ∀ (s : ChatServer) (c : ChatId) (ev : List ChatMessage),
      (∀ m ∈ msgs, m.chat_id = c) →
      alookup c s.histories = some { poisoned := false, events := ev } →
      ∃ s1, sendAll s msgs = Except.ok s1 ∧
        alookup c s1.histories = some { poisoned := false, events := ev ++ msgs } := by
  induction msgs with
  | nil =>
    intro s c ev _ hh
    exact ⟨s, rfl, by simpa using hh⟩
  | cons m rest ih =>
    intro s c ev hc hh
    have hmc : m.chat_id = c := hc m (List.mem_cons_self m rest)
    have hh2 : alookup m.chat_id s.histories = some { poisoned := false, events := ev } := by
      rw [hmc]; exact hh
    have hchar := send_message_ok_char s m { poisoned := false, events := ev } hh2 rfl
    obtain ⟨s2, hs2, hl⟩ := ih
      { s with
        histories := aset m.chat_id { poisoned := false, events := ev ++ [m] } s.histories,
        broadcasts :=
          (match alookup m.chat_id s.broadcasts with
           | some ch => aset m.chat_id (chanSend ch m) s.broadcasts
           | none => s.broadcasts) }
      c (ev ++ [m])
      (fun m2 hm2 => hc m2 (List.mem_cons_of_mem m hm2))
      (by rw [← hmc]
          simpa using alookup_aset_self m.chat_id
            { poisoned := false, events := ev ++ [m] } s.histories)
    refine ⟨s2, ?_, by simpa [List.append_assoc] using hl⟩
    simp only [sendAll, hchar]
    exact hs2

/-! ### The claims -/

/-- C1: posting to a room id never referenced before succeeds and
implicitly creates the room: a subsequent `get_chat_history` for that id
succeeds and returns exactly that one event. -/
theorem post_unknown_room_creates_it (s : ChatServer) (m : ChatMessage)
    (h : alookup m.chat_id s.histories = none) :
    ∃ s1, s.send_message m = Except.ok s1 ∧
      s1.get_chat_history m.chat_id = Except.ok [m] := by
  refine ⟨_, send_message_none_char s m h, ?_⟩
  rw [get_chat_history_ok_iff]
  simpa using alookup_aset_self m.chat_id { poisoned := false, events := [m] } s.histories

/-- Witness for C1 at a concrete fresh server and message. -/
theorem post_unknown_room_creates_it_witness :
    ∃ s1, ChatServer.new.send_message (wMsg 0) = Except.ok s1 ∧
      s1.get_chat_history (wMsg 0).chat_id = Except.ok [wMsg 0] :=
  post_unknown_room_creates_it ChatServer.new (wMsg 0) (by decide)

/-- C2: N sequential posts for the same room, starting from a room id not
yet referenced, leave `get_chat_history` returning exactly those N events
in post order. -/
theorem sequential_posts_ordered (s : ChatServer) (c : ChatId) (msgs : List ChatMessage)
    (hc : ∀ m ∈ msgs, m.chat_id = c)
    (hfresh : alookup c s.histories = none) (hne : msgs ≠ []) :
    ∃ s1, sendAll s msgs = Except.ok s1 ∧ s1.get_chat_history c = Except.ok msgs := by
  cases msgs with
  | nil => exact absurd rfl hne
  | cons m rest =>
    have hmc : m.chat_id = c := hc m (List.mem_cons_self m rest)
    have hh : alookup m.chat_id s.histories = none := by rw [hmc]; exact hfresh
    have hchar := send_message_none_char s m hh
    obtain ⟨s2, hs2, hl⟩ := sendAll_from_cell rest
      { s with
        histories := aset m.chat_id { poisoned := false, events := [m] } s.histories,
        broadcasts :=
          (match alookup m.chat_id s.broadcasts with
           | some ch => aset m.chat_id (chanSend ch m) s.broadcasts
           | none => s.broadcasts) }
      c [m]
      (fun m2 hm2 => hc m2 (List.mem_cons_of_mem m hm2))
      (by rw [← hmc]
          simpa using alookup_aset_self m.chat_id
            { poisoned := false, events := [m] } s.histories)
    refine ⟨s2, ?_, ?_⟩
    · simp only [sendAll, hchar]
      exact hs2
    · rw [get_chat_history_ok_iff]
      simpa using hl

/-- Witness for C2: three concrete sequential posts come back in order. -/
theorem sequential_posts_ordered_witness :
    ∃ s1, sendAll ChatServer.new [wMsg 0, wMsg 1, wMsg 2] = Except.ok s1 ∧
      s1.get_chat_history wChat = Except.ok [wMsg 0, wMsg 1, wMsg 2] :=
  sequential_posts_ordered ChatServer.new wChat [wMsg 0, wMsg 1, wMsg 2]
    (by decide) (by decide) (by decide)

/-- C3: for a room id never referenced, `get_chat_history` fails with
`ChatNotFound` carrying that id, the failing call leaves the state
unchanged, and an immediately repeated call fails the same way. -/
theorem history_unknown_room_fails (s : ChatServer) (c : ChatId)
    (h : alookup c s.histories = none) :
    s.get_chat_history c = Except.error (ChatServerErrors.ChatNotFound c) ∧
    applyOp s (Op.gethist c) = s ∧
    (applyOp s (Op.gethist c)).get_chat_history c =
      Except.error (ChatServerErrors.ChatNotFound c) := by
  refine ⟨?_, rfl, ?_⟩ <;> simp [ChatServer.get_chat_history, applyOp, h]

/-- Witness for C3 at a concrete fresh server. -/
theorem history_unknown_room_fails_witness :
    ChatServer.new.get_chat_history wChat =
      Except.error (ChatServerErrors.ChatNotFound wChat) ∧
    applyOp ChatServer.new (Op.gethist wChat) = ChatServer.new ∧
    (applyOp ChatServer.new (Op.gethist wChat)).get_chat_history wChat =
      Except.error (ChatServerErrors.ChatNotFound wChat) :=
  history_unknown_room_fails ChatServer.new wChat (by decide)

/-- C5: `join_chat` (whose result type admits no failure) on a room id not
previously referenced implicitly creates the room with an empty history,
so a subsequent `get_chat_history` returns the empty sequence. -/
theorem subscribe_unknown_room_empty_history (s : ChatServer) (c : ChatId)
    (h : alookup c s.histories = none) :
    ((s.join_chat c).1).get_chat_history c = Except.ok ([] : List ChatMessage) := by
  rw [get_chat_history_ok_iff, join_chat_fst_histories, orInsert_of_none c _ _ h]
  simpa [emptyHistoryCell] using alookup_aset_self c emptyHistoryCell s.histories

/-- Witness for C5 at a concrete fresh server. -/
theorem subscribe_unknown_room_empty_history_witness :
    ((ChatServer.new.join_chat wChat).1).get_chat_history wChat =
      Except.ok ([] : List ChatMessage) :=
  subscribe_unknown_room_empty_history ChatServer.new wChat (by decide)

/-- C4: `send_message` fails exactly when the room's history lock is
poisoned, and then with `LockPoisoned`; otherwise it succeeds, appends the
event to the room's history, and the absence of a fan-out channel never
makes it fail — the event is dropped from the live feed (broadcast state
untouched) while history records it. -/
theorem post_fails_only_on_poisoned_lock (s : ChatServer) (m : ChatMessage) :
    (histPoisoned s m.chat_id = true →
      s.send_message m = Except.error (ChatServerErrors.LockPoisoned "accessing history")) ∧
    (histPoisoned s m.chat_id = false →
      ∃ s1, s.send_message m = Except.ok s1 ∧
        histEvents s1 m.chat_id = histEvents s m.chat_id ++ [m] ∧
        (alookup m.chat_id s.broadcasts = none → s1.broadcasts = s.broadcasts)) := by
  constructor
  · intro hp
    unfold histPoisoned at hp
    cases hh : alookup m.chat_id s.histories with
    | none => rw [hh] at hp; cases hp
    | some cell =>
      rw [hh] at hp
      exact send_message_err_char s m cell hh hp
  · intro hp
    unfold histPoisoned at hp
    cases hh : alookup m.chat_id s.histories with
    | none =>
      refine ⟨_, send_message_none_char s m hh, ?_, ?_⟩
      · simp [histEvents, hh, alookup_aset_self]
      · intro hb
        simp [hb]
    | some cell =>
      rw [hh] at hp
      refine ⟨_, send_message_ok_char s m cell hh hp, ?_, ?_⟩
      · simp [histEvents, hh, alookup_aset_self]
      · intro hb
        simp [hb]

/-- Witness for C4: the poisoned branch on a concrete poisoned server and
the success branch (with no channel registered) on a fresh server. -/
theorem post_fails_only_on_poisoned_lock_witness :
    wPoisonedServer.send_message (wMsg 0) =
      Except.error (ChatServerErrors.LockPoisoned "accessing history") ∧
    (∃ s1, ChatServer.new.send_message (wMsg 0) = Except.ok s1 ∧
      histEvents s1 (wMsg 0).chat_id = histEvents ChatServer.new (wMsg 0).chat_id ++ [wMsg 0] ∧
      (alookup (wMsg 0).chat_id ChatServer.new.broadcasts = none →
        s1.broadcasts = ChatServer.new.broadcasts)) :=
  ⟨(post_fails_only_on_poisoned_lock wPoisonedServer (wMsg 0)).1 (by decide),
   (post_fails_only_on_poisoned_lock ChatServer.new (wMsg 0)).2 (by decide)⟩

/-- C6: `part_chat` (a total function, so it returns without error)
removes the room's fan-out entry iff the receiver count observed at the
check is exactly zero; with at least one receiver attached the entry
survives, and nothing else changes. -/
theorem unsubscribe_removes_iff_no_receivers (s : ChatServer) (c : ChatId)
    (h : (s.broadcasts.map Prod.fst).Nodup) :
    alookup c (s.part_chat c).broadcasts =
      (match alookup c s.broadcasts with
       | some ch => if ch.receivers.length = 0 then none else some ch
       | none => none) ∧
    (s.part_chat c).histories = s.histories ∧
    ∀ c2, c2 ≠ c → alookup c2 (s.part_chat c).broadcasts = alookup c2 s.broadcasts := by
  refine ⟨?_, rfl, fun c2 hne => ?_⟩
  · cases hb : alookup c s.broadcasts with
    | none =>
      simp [ChatServer.part_chat, alookup_aremoveIf_self c _ s.broadcasts h, hb]
    | some ch =>
      by_cases hr : ch.receivers.length = 0 <;>
        simp [ChatServer.part_chat, alookup_aremoveIf_self c _ s.broadcasts h, hb, hr]
  · exact alookup_aremoveIf_ne _ s.broadcasts hne

/-- Witness for C6: the entry for a channel with zero receivers is
removed on a concrete server. -/
theorem unsubscribe_removes_iff_no_receivers_witness :
    alookup wChat (wIdleChannelServer.part_chat wChat).broadcasts =
      (match alookup wChat wIdleChannelServer.broadcasts with
       | some ch => if ch.receivers.length = 0 then none else some ch
       | none => none) ∧
    (wIdleChannelServer.part_chat wChat).histories = wIdleChannelServer.histories ∧
    ∀ c2, c2 ≠ wChat →
      alookup c2 (wIdleChannelServer.part_chat wChat).broadcasts =
        alookup c2 wIdleChannelServer.broadcasts :=
  unsubscribe_removes_iff_no_receivers wIdleChannelServer wChat (by decide)

/-- Helper: a successful `send_message` leaves every other room's history
entry and broadcast entry unchanged. -/
theorem send_message_frame_aux (s : ChatServer) (m : ChatMessage) (c2 : ChatId)
    (hne : c2 ≠ m.chat_id) (s1 : ChatServer) (hok : s.send_message m = Except.ok s1) :
    alookup c2 s1.histories = alookup c2 s.histories ∧
    alookup c2 s1.broadcasts = alookup c2 s.broadcasts := by
  cases hh : alookup m.chat_id s.histories with
  | none =>
    rw [send_message_none_char s m hh] at hok
    simp only [Except.ok.injEq] at hok
    subst hok
    constructor
    · exact alookup_aset_ne _ s.histories hne
    · cases hb : alookup m.chat_id s.broadcasts with
      | none => simp [hb]
      | some ch => simp [hb, alookup_aset_ne _ s.broadcasts hne]
  | some cell =>
    cases hcp : cell.poisoned with
    | true =>
      rw [send_message_err_char s m cell hh hcp] at hok
      cases hok
    | false =>
      rw [send_message_ok_char s m cell hh hcp] at hok
      simp only [Except.ok.injEq] at hok
      subst hok
      constructor
      · exact alookup_aset_ne _ s.histories hne
      · cases hb : alookup m.chat_id s.broadcasts with
        | none => simp [hb]
        | some ch => simp [hb, alookup_aset_ne _ s.broadcasts hne]

/-- C9: posting an event touches only the event's own room: every other
room's history entry and fan-out channel are exactly as before, so
subscribers of other rooms receive nothing from the post. -/
theorem post_frame_other_rooms (s : ChatServer) (m : ChatMessage) (c2 : ChatId)
    (hne : c2 ≠ m.chat_id) (s1 : ChatServer) (hok : s.send_message m = Except.ok s1) :
    alookup c2 s1.histories = alookup c2 s.histories ∧
    alookup c2 s1.broadcasts = alookup c2 s.broadcasts :=
  send_message_frame_aux s m c2 hne s1 hok

/-- Witness for C9: a concrete post to `wChat` leaves room `wChat2`
untouched. -/
theorem post_frame_other_rooms_witness :
    alookup wChat2 wServerAfterSend.histories = alookup wChat2 ChatServer.new.histories ∧
    alookup wChat2 wServerAfterSend.broadcasts = alookup wChat2 ChatServer.new.broadcasts :=
  post_frame_other_rooms ChatServer.new (wMsg 0) wChat2 (by decide) wServerAfterSend (by rfl)

/-- Helper: one facade call can only extend a room's unpoisoned history
entry at the tail. -/
theorem applyOp_hist_extend (o : Op) (s : ChatServer) (c : ChatId) (ev : List ChatMessage)
    (h : alookup c s.histories = some { poisoned := false, events := ev }) :
    ∃ t, alookup c (applyOp s o).histories =
      some { poisoned := false, events := ev ++ t } := by
  cases o with
  | send m =>
    by_cases hmc : m.chat_id = c
    · have hh : alookup m.chat_id s.histories = some { poisoned := false, events := ev } := by
        rw [hmc]; exact h
      have hchar := send_message_ok_char s m { poisoned := false, events := ev } hh rfl
      refine ⟨[m], ?_⟩
      simp only [applyOp, hchar]
      rw [← hmc]
      simpa using alookup_aset_self m.chat_id
        { poisoned := false, events := ev ++ [m] } s.histories
    · cases hsm : s.send_message m with
      | error e => exact ⟨[], by simp [applyOp, hsm, h]⟩
      | ok s1 =>
        have hfr := send_message_frame_aux s m c (fun h2 => hmc h2.symm) s1 hsm
        exact ⟨[], by simp [applyOp, hsm, hfr.1, h]⟩
  | join c2 =>
    refine ⟨[], ?_⟩
    simp only [applyOp, join_chat_fst_histories, List.append_nil]
    by_cases hc2 : c = c2
    · subst hc2
      rw [orInsert_of_some c emptyHistoryCell s.histories h]
      exact h
    · rw [alookup_orInsert_ne emptyHistoryCell s.histories hc2]
      exact h
  | part c2 => exact ⟨[], by simp [applyOp, ChatServer.part_chat, h]⟩
  | gethist c2 => exact ⟨[], by simp [applyOp, h]⟩

/-- Helper: a whole sequential trace of facade calls only ever extends a
room's unpoisoned history entry at the tail. -/
theorem applyOps_hist_extend (ops : List Op) :
    ∀ (s : ChatServer) (c : ChatId) (ev : List ChatMessage),
      alookup c s.histories = some { poisoned := false, events := ev } →
      ∃ t, alookup c (applyOps s ops).histories =
        some { poisoned := false, events := ev ++ t } := by
  induction ops with
  | nil => exact fun s c ev h => ⟨[], by simpa using h⟩
  | cons o rest ih =>
    intro s c ev h
    obtain ⟨t1, h1⟩ := applyOp_hist_extend o s c ev h
    obtain ⟨t2, h2⟩ := ih (applyOp s o) c (ev ++ t1) h1
    refine ⟨t1 ++ t2, ?_⟩
    simpa [applyOps, List.append_assoc] using h2

/-- C10: repeated history reads interleaved with further facade calls
return growing prefixes of one sequence: any later successful
`get_chat_history` result extends any earlier one at the tail, never
reordering or removing previously returned events. -/
theorem history_results_are_prefixes (s : ChatServer) (c : ChatId) (ops : List Op)
    (h1 : List ChatMessage) (hget : s.get_chat_history c = Except.ok h1) :
    ∃ t, (applyOps s ops).get_chat_history c = Except.ok (h1 ++ t) := by
  rw [get_chat_history_ok_iff] at hget
  obtain ⟨t, ht⟩ := applyOps_hist_extend ops s c h1 hget
  exact ⟨t, (get_chat_history_ok_iff _ c _).2 ht⟩

/-- Witness for C10: a concrete trace of two further posts and an
interleaved read extends the earlier one-event history at the tail. -/
theorem history_results_are_prefixes_witness :
    ∃ t, (applyOps wServerAfterSend
        [Op.send (wMsg 1), Op.gethist wChat, Op.send (wMsg 2)]).get_chat_history wChat =
      Except.ok ([wMsg 0] ++ t) :=
  history_results_are_prefixes wServerAfterSend wChat
    [Op.send (wMsg 1), Op.gethist wChat, Op.send (wMsg 2)] [wMsg 0] (by rfl)

/-- Helper: a post to a room with an unpoisoned history and a registered
channel with at least one receiver appends the event to both the history
and the channel's stream. -/
theorem send_message_chan_step (s : ChatServer) (m : ChatMessage) (ev : List ChatMessage)
    (ch : BroadcastChannel)
    (hh : alookup m.chat_id s.histories = some { poisoned := false, events := ev })
    (hb : alookup m.chat_id s.broadcasts = some ch)
    (hr : ch.receivers.isEmpty = false) :
    ∃ s1, s.send_message m = Except.ok s1 ∧
      alookup m.chat_id s1.histories = some { poisoned := false, events := ev ++ [m] } ∧
      alookup m.chat_id s1.broadcasts = some { ch with sent := ch.sent ++ [m] } := by
  refine ⟨_, send_message_ok_char s m { poisoned := false, events := ev } hh rfl, ?_, ?_⟩
  · simpa using alookup_aset_self m.chat_id
      { poisoned := false, events := ev ++ [m] } s.histories
  · simp only [hb, chanSend, hr, Bool.false_eq_true, if_false]
    simpa using alookup_aset_self m.chat_id { ch with sent := ch.sent ++ [m] } s.broadcasts

/-- Helper: sequential posts to a room whose channel has a receiver append
all of them, in order, to the channel's stream, and none of the posts
fails or blocks. -/
theorem sendAll_chan (msgs : List ChatMessage) :
    ∀ (s : ChatServer) (c : ChatId) (ev : List ChatMessage) (ch : BroadcastChannel),
      (∀ m ∈ msgs, m.chat_id = c) →
      alookup c s.histories = some { poisoned := false, events := ev } →
      alookup c s.broadcasts = some ch →
      ch.receivers.isEmpty = false →
      ∃ s1, sendAll s msgs = Except.ok s1 ∧
        alookup c s1.broadcasts = some { ch with sent := ch.sent ++ msgs } := by
  induction msgs with
  | nil =>
    intro s c ev ch _ _ hb _
    exact ⟨s, rfl, by simpa using hb⟩
  | cons m rest ih =>
    intro s c ev ch hc hh hb hr
    have hmc : m.chat_id = c := hc m (List.mem_cons_self m rest)
    have hh2 : alookup m.chat_id s.histories = some { poisoned := false, events := ev } := by
      rw [hmc]; exact hh
    have hb2 : alookup m.chat_id s.broadcasts = some ch := by
      rw [hmc]; exact hb
    obtain ⟨s1, hs1, hh1, hb1⟩ := send_message_chan_step s m ev ch hh2 hb2 hr
    rw [hmc] at hh1 hb1
    obtain ⟨s2, hs2, hbl⟩ := ih s1 c (ev ++ [m]) { ch with sent := ch.sent ++ [m] }
      (fun m2 hm2 => hc m2 (List.mem_cons_of_mem m hm2)) hh1 hb1 (by simpa using hr)
    refine ⟨s2, ?_, ?_⟩
    · simp only [sendAll, hs1]
      exact hs2
    · simpa [List.append_assoc] using hbl

/-- C8: `join_chat` registers a channel of fixed capacity 16; when an
attached subscriber reads nothing while more than 16 events are posted to
its room, none of the posts fails, the subscriber's next read yields the
lag signal (with the number of skipped events), and the read after that
resumes with the oldest retained event. -/
theorem lag_signal_and_resume (s : ChatServer) (c : ChatId) (msgs : List ChatMessage)
    (mdef : ChatMessage)
    (hb : alookup c s.broadcasts = none)
    (hp : histPoisoned s c = false)
    (hc : ∀ m ∈ msgs, m.chat_id = c)
    (hlen : 16 < msgs.length) :
    ∃ s2 ch, sendAll ((s.join_chat c).1) msgs = Except.ok s2 ∧
      alookup c s2.broadcasts = some ch ∧
      ch.capacity = 16 ∧
      (chanRecv ch ((s.join_chat c).2)).2 = RecvResult.lagged (msgs.length - 16) ∧
      (chanRecv (chanRecv ch ((s.join_chat c).2)).1 ((s.join_chat c).2)).2 =
        RecvResult.msg (msgs.getD (msgs.length - 16) mdef) := by
  have hjoin := join_chat_none_char s c hb
  have hj2 : (s.join_chat c).2 = s.nextRecvId := by rw [hjoin]
  obtain ⟨ev, hev⟩ : ∃ ev, alookup c ((s.join_chat c).1).histories =
      some { poisoned := false, events := ev } := by
    rw [join_chat_fst_histories]
    cases hh : alookup c s.histories with
    | none =>
      refine ⟨[], ?_⟩
      rw [orInsert_of_none c _ _ hh]
      simpa [emptyHistoryCell] using alookup_aset_self c emptyHistoryCell s.histories
    | some cell =>
      have hcp : cell.poisoned = false := by
        unfold histPoisoned at hp
        rw [hh] at hp
        exact hp
      refine ⟨cell.events, ?_⟩
      rw [orInsert_of_some c _ _ hh]
      rw [hh]
      cases cell
      simp_all
  have hbs : alookup c ((s.join_chat c).1).broadcasts =
      some { chanId := s.nextChanId, capacity := 16, sent := [],
             receivers := [(s.nextRecvId, 0)] } := by
    rw [hjoin]
    simpa using alookup_aset_self c
      { chanId := s.nextChanId, capacity := 16, sent := [],
        receivers := [(s.nextRecvId, 0)] } s.broadcasts
  obtain ⟨s2, hs2, hbs2⟩ := sendAll_chan msgs ((s.join_chat c).1) c ev
    { chanId := s.nextChanId, capacity := 16, sent := [], receivers := [(s.nextRecvId, 0)] }
    hc hev hbs rfl
  refine ⟨s2,
    { chanId := s.nextChanId, capacity := 16, sent := msgs,
      receivers := [(s.nextRecvId, 0)] },
    hs2, by simpa using hbs2, rfl, ?_, ?_⟩
  · rw [hj2]
    have hpos : 0 < msgs.length := by omega
    simp [chanRecv, alookup, hpos, hlen]
  · rw [hj2]
    have hpos : 0 < msgs.length := by omega
    have hpos2 : msgs.length - 16 < msgs.length := by omega
    have hle : ¬ 16 < msgs.length - (msgs.length - 16) := by omega
    simp [chanRecv, alookup, hpos, hlen, hpos2, hle, aset,
      List.getD_eq_getElem, List.get_eq_getElem]

/-- Witness for C8: seventeen concrete posts to a freshly joined room
produce a lag signal for one skipped event, then the second message. -/
theorem lag_signal_and_resume_witness :
    ∃ s2 ch,
      sendAll ((ChatServer.new.join_chat wChat).1) wMsgs17 = Except.ok s2 ∧
      alookup wChat s2.broadcasts = some ch ∧
      ch.capacity = 16 ∧
      (chanRecv ch ((ChatServer.new.join_chat wChat).2)).2 =
        RecvResult.lagged (wMsgs17.length - 16) ∧
      (chanRecv (chanRecv ch ((ChatServer.new.join_chat wChat).2)).1
          ((ChatServer.new.join_chat wChat).2)).2 =
        RecvResult.msg (wMsgs17.getD (wMsgs17.length - 16) (wMsg 0)) :=
  lag_signal_and_resume ChatServer.new wChat wMsgs17 (wMsg 0)
    (by decide) (by decide) (by decide) (by decide)

/-! ### The first-subscribe race (C7) -/

theorem alookup_isSome_append {α β : Type} [DecidableEq α] (k : α) (l1 l2 : List (α × β))
    (h : (alookup k l1).isSome = true) : (alookup k (l1 ++ l2)).isSome = true := by
  rw [alookup_append]
  cases hh : alookup k l1 with
  | none => rw [hh] at h; cases h
  | some v => simp

theorem alookup_subscribe_self (ch : BroadcastChannel) (rid : Nat) :
    (alookup rid (chanSubscribe ch rid).receivers).isSome = true := by
  unfold chanSubscribe
  rw [alookup_append]
  cases hh : alookup rid ch.receivers with
  | none => simp [alookup]
  | some v => simp

theorem alookup_subscribe_mono (ch : BroadcastChannel) (rid r : Nat)
    (h : (alookup r ch.receivers).isSome = true) :
    (alookup r (chanSubscribe ch rid).receivers).isSome = true :=
  alookup_isSome_append r ch.receivers [(rid, ch.sent.length)] h

/-- Helper: once a channel is registered for the room, any atomic step of
a caller keeps a channel with the same identity registered there and never
detaches an attached receiver. -/
theorem threadStep_chan_stable (c : ChatId) (sh : ChatServer) (t : TPhase)
    (ch : BroadcastChannel) (h : alookup c sh.broadcasts = some ch) :
    ∃ ch2, alookup c ((threadStep c sh t).1).broadcasts = some ch2 ∧
      ch2.chanId = ch.chanId ∧
      ∀ r, (alookup r ch.receivers).isSome = true →
        (alookup r ch2.receivers).isSome = true := by
  cases t with
  | start => exact ⟨ch, h, rfl, fun r hr => hr⟩
  | checkChan =>
    refine ⟨chanSubscribe ch sh.nextRecvId, ?_, rfl, fun r hr => alookup_subscribe_mono ch _ r hr⟩
    simp only [threadStep, h]
    exact alookup_aset_self c (chanSubscribe ch sh.nextRecvId) sh.broadcasts
  | insertChan localId =>
    have hoi := orInsert_of_some c
      { chanId := localId, capacity := 16, sent := [], receivers := [] } sh.broadcasts h
    refine ⟨chanSubscribe ch sh.nextRecvId, ?_, rfl, fun r hr => alookup_subscribe_mono ch _ r hr⟩
    simp only [threadStep, hoi]
    exact alookup_aset_self c (chanSubscribe ch sh.nextRecvId) sh.broadcasts
  | done i r => exact ⟨ch, h, rfl, fun r hr => hr⟩

/-- Helper: a finished caller stays consistent while the other caller
steps. -/
theorem threadStep_preserves_doneOk (c : ChatId) (sh : ChatServer) (t t2 : TPhase)
    (h : doneOk sh c t2) : doneOk ((threadStep c sh t).1) c t2 := by
  cases t2 with
  | done i r =>
    obtain ⟨ch, hch, hid, hrec⟩ := h
    obtain ⟨ch2, hch2, hid2, hrec2⟩ := threadStep_chan_stable c sh t ch hch
    exact ⟨ch2, hch2, hid2.trans hid, hrec2 r hrec⟩
  | start => exact trivial
  | checkChan => exact trivial
  | insertChan l => exact trivial

/-- Helper: a caller's own atomic step leaves it consistent: if it just
finished, it subscribed to the channel that is now registered. -/
theorem threadStep_self_doneOk (c : ChatId) (sh : ChatServer) (t : TPhase)
    (h : doneOk sh c t) : doneOk ((threadStep c sh t).1) c ((threadStep c sh t).2) := by
  cases t with
  | start => exact trivial
  | checkChan =>
    cases hb : alookup c sh.broadcasts with
    | none =>
      simp only [threadStep, hb]
      exact trivial
    | some ch =>
      simp only [threadStep, hb]
      exact ⟨chanSubscribe ch sh.nextRecvId,
        alookup_aset_self c (chanSubscribe ch sh.nextRecvId) sh.broadcasts, rfl,
        alookup_subscribe_self ch sh.nextRecvId⟩
  | insertChan localId =>
    cases hb : alookup c sh.broadcasts with
    | some ch =>
      have hoi := orInsert_of_some c
        { chanId := localId, capacity := 16, sent := [], receivers := [] } sh.broadcasts hb
      simp only [threadStep, hoi]
      exact ⟨chanSubscribe ch sh.nextRecvId,
        alookup_aset_self c (chanSubscribe ch sh.nextRecvId) sh.broadcasts, rfl,
        alookup_subscribe_self ch sh.nextRecvId⟩
    | none =>
      have hoi := orInsert_of_none c
        { chanId := localId, capacity := 16, sent := [], receivers := [] } sh.broadcasts hb
      simp only [threadStep, hoi]
      refine ⟨chanSubscribe
          { chanId := localId, capacity := 16, sent := [], receivers := [] } sh.nextRecvId,
        ?_, rfl,
        alookup_subscribe_self
          { chanId := localId, capacity := 16, sent := [], receivers := [] } sh.nextRecvId⟩
      rw [aset_aset]
      exact alookup_aset_self c _ sh.broadcasts
  | done i r => exact h

/-- Helper: the race invariant is preserved by either caller's step. -/
theorem raceStep_inv (c : ChatId) (cfg : RaceConfig) (who : Bool)
    (h : raceInv c cfg) : raceInv c (raceStep c cfg who) := by
  cases who with
  | true =>
    exact ⟨threadStep_self_doneOk c cfg.sh cfg.t1 h.1,
      threadStep_preserves_doneOk c cfg.sh cfg.t1 cfg.t2 h.2⟩
  | false =>
    exact ⟨threadStep_preserves_doneOk c cfg.sh cfg.t2 cfg.t1 h.1,
      threadStep_self_doneOk c cfg.sh cfg.t2 h.2⟩

/-- Helper: the race invariant holds after any schedule. -/
theorem raceRun_inv (c : ChatId) (sched : List Bool) :
    ∀ cfg, raceInv c cfg → raceInv c (raceRun c cfg sched) := by
  induction sched with
  | nil => exact fun cfg h => h
  | cons b rest ih =>
    intro cfg h
    exact ih (raceStep c cfg b) (raceStep_inv c cfg b h)

/-- Helper: every atomic step keeps the broadcast registry's keys
duplicate-free. -/
theorem threadStep_nodup (c : ChatId) (sh : ChatServer) (t : TPhase)
    (h : (sh.broadcasts.map Prod.fst).Nodup) :
    ((((threadStep c sh t).1).broadcasts).map Prod.fst).Nodup := by
  cases t with
  | start => exact h
  | checkChan =>
    cases hb : alookup c sh.broadcasts with
    | none =>
      simp only [threadStep, hb]
      exact h
    | some ch =>
      simp only [threadStep, hb]
      exact nodupKeys_aset c _ sh.broadcasts h
  | insertChan localId =>
    cases hb : alookup c sh.broadcasts with
    | some ch =>
      have hoi := orInsert_of_some c
        { chanId := localId, capacity := 16, sent := [], receivers := [] } sh.broadcasts hb
      simp only [threadStep, hoi]
      exact nodupKeys_aset c _ sh.broadcasts h
    | none =>
      have hoi := orInsert_of_none c
        { chanId := localId, capacity := 16, sent := [], receivers := [] } sh.broadcasts hb
      simp only [threadStep, hoi]
      exact nodupKeys_aset c _ _ (nodupKeys_aset c _ sh.broadcasts h)
  | done i r => exact h

/-- Helper: registry keys stay duplicate-free along any schedule. -/
theorem raceRun_nodup (c : ChatId) (sched : List Bool) :
    ∀ cfg, ((cfg.sh.broadcasts).map Prod.fst).Nodup →
      ((((raceRun c cfg sched).sh).broadcasts).map Prod.fst).Nodup := by
  induction sched with
  | nil => exact fun cfg h => h
  | cons b rest ih =>
    intro cfg h
    refine ih (raceStep c cfg b) ?_
    cases b with
    | true => exact threadStep_nodup c cfg.sh cfg.t1 h
    | false => exact threadStep_nodup c cfg.sh cfg.t2 h

/-- C7: under any interleaving of two callers racing through `join_chat`
for the same room, when both have finished there is exactly one channel
registered for the room (the registry's keys stay duplicate-free, so at
most one entry per room in every reachable state), both callers' channel
identities are that winning channel's identity, and both callers'
receivers are attached to it. -/
theorem join_chat_race_single_channel (s : ChatServer) (c : ChatId) (sched : List Bool)
    (i1 r1 i2 r2 : Nat)
    (hnd : (s.broadcasts.map Prod.fst).Nodup)
    (h1 : (raceRun c ⟨s, TPhase.start, TPhase.start⟩ sched).t1 = TPhase.done i1 r1)
    (h2 : (raceRun c ⟨s, TPhase.start, TPhase.start⟩ sched).t2 = TPhase.done i2 r2) :
    (∃ ch, alookup c (((raceRun c ⟨s, TPhase.start, TPhase.start⟩ sched).sh).broadcasts) =
        some ch ∧
      ch.chanId = i1 ∧ ch.chanId = i2 ∧
      (alookup r1 ch.receivers).isSome = true ∧
      (alookup r2 ch.receivers).isSome = true) ∧
    ((((raceRun c ⟨s, TPhase.start, TPhase.start⟩ sched).sh).broadcasts).map Prod.fst).Nodup := by
  have hinv := raceRun_inv c sched ⟨s, TPhase.start, TPhase.start⟩ ⟨trivial, trivial⟩
  have ha := hinv.1
  have hb := hinv.2
  rw [h1] at ha
  rw [h2] at hb
  obtain ⟨ch1, hc1, hi1, hr1⟩ := ha
  obtain ⟨ch2, hc2, hi2, hr2⟩ := hb
  have hch : ch1 = ch2 := by
    rw [hc1] at hc2
    exact Option.some.inj hc2
  subst hch
  exact ⟨⟨ch1, hc1, hi1, hi2, hr1, hr2⟩,
    raceRun_nodup c sched ⟨s, TPhase.start, TPhase.start⟩ hnd⟩

/-- Witness for C7: a concrete schedule in which the first caller creates
and inserts the channel and the second caller then subscribes to it. -/
theorem join_chat_race_single_channel_witness :
    (∃ ch, alookup wChat
        (((raceRun wChat ⟨ChatServer.new, TPhase.start, TPhase.start⟩
            [true, true, true, false, false]).sh).broadcasts) = some ch ∧
      ch.chanId = 0 ∧ ch.chanId = 0 ∧
      (alookup 0 ch.receivers).isSome = true ∧
      (alookup 1 ch.receivers).isSome = true) ∧
    ((((raceRun wChat ⟨ChatServer.new, TPhase.start, TPhase.start⟩
        [true, true, true, false, false]).sh).broadcasts).map Prod.fst).Nodup :=
  join_chat_race_single_channel ChatServer.new wChat [true, true, true, false, false]
    0 0 0 1 (by decide) (by decide) (by decide)

end ChatDemo
